import Mathlib

/-!
Shallow embedding of `kernel/power/energy_model.c` (the performance-domain
energy-model registry) and verification of its specification.

The C functions `em_create_pd`, `em_cpu_get` and `em_register_perf_domain`
are translated into executable Lean definitions.  Machine integers
(`unsigned long`, `u64`, both 64 bits wide on this target) are modelled as
`Nat`, reduced `% 2^64` at every point where the C type forces a width:
values received from the driver callback through `unsigned long` out
parameters, and the `u64` product `fmax * table[i].power` whose wrap-around
matters for the cost computation.

The driver callback `active_power` is modelled as a pure function from
(frequency floor, cpu) to an optional (power, frequency) pair; `none`
models a nonzero return code.  The per-cpu `em_data` array together with
the dynamically allocated `em_perf_domain` objects are modelled as a state
containing an address-indexed heap, so that sharing of one published
domain object between all cpus of a span is expressible.  Allocation
failures (`kzalloc`/`kcalloc` returning NULL) and the kobject sysfs
registration (which does not influence any returned value) are not
modelled.
-/

/-- Modelled from the spec: MAX_POWER, "a fixed bound representing the limit
of the power field's bit width, e.g. fits in 16 bits".  The constant
`EM_CPU_MAX_POWER` lives in the energy-model header, which is not among the
sources; only its role as a fixed 16-bit bound is used. -/
def EM_CPU_MAX_POWER : Nat := 0xFFFF

/-- Modulus of the C types `u64` and `unsigned long` on this 64-bit target. -/
def U64 : Nat := 2 ^ 64

/-- `ULONG_MAX` on this target, the initial value of `prev_opp_eff`. -/
def ULONG_MAX : Nat := 2 ^ 64 - 1

/-- Model parameter: `nr_cpu_ids`, the value `cpumask_first` yields on an
empty mask.  Its concrete value influences nothing but which cpu argument
the callback receives for an empty span. -/
def nr_cpu_ids : Nat := 8

/-- `cpumask_first`: first cpu of the mask, `nr_cpu_ids` for the empty mask.
A cpumask is modelled as the list of its members in ascending order. -/
def cpumask_first (span : List Nat) : Nat := span.headD nr_cpu_ids

/-- One row of the capacity-state table, `struct em_cap_state`. -/
structure em_cap_state where
  frequency : Nat
  power : Nat
  cost : Nat
deriving DecidableEq, Repr, Inhabited

/-- `struct em_perf_domain` (the kobject member is omitted: it influences no
result). -/
structure em_perf_domain where
  table : List em_cap_state
  nr_cap_states : Nat
  cpus : List Nat
deriving DecidableEq, Repr

/-- The `active_power` driver callback: from the frequency floor (the value
of `freq` at call time) and a cpu to either `none` (a nonzero return code)
or the pair (power, frequency) written through the out parameters. -/
abbrev Sampler : Type := Nat → Nat → Option (Nat × Nat)

/-- `struct em_data_callback`; the `active_power` member may be NULL. -/
structure em_data_callback where
  active_power : Option Sampler

/-- The three `goto free_cs_table` branches of the build loop, tagged with
the loop index at which they fire (each is a distinct `pr_err`). -/
inductive BuildError where
  | samplerError (i : Nat)
  | nonIncreasingFreq (i : Nat)
  | invalidPower (i : Nat)
deriving DecidableEq, Repr

/-- The loop index at which a build error fired. -/
def BuildError.index : BuildError → Nat
  | .samplerError i => i
  | .nonIncreasingFreq i => i
  | .invalidPower i => i

/-- Trace of the capacity-state build loop of `em_create_pd`:
`entries` are the accepted (power, frequency) pairs in order, `floors` the
value of `freq` passed into each `active_power` invocation, `warns` the
indices at which the hertz/watts `pr_warn` fired, `err` the abort cause if
the loop did not complete. -/
structure BuildResult where
  entries : List (Nat × Nat)
  floors : List Nat
  warns : List Nat
  err : Option BuildError
deriving DecidableEq, Repr

/-- The for-loop of `em_create_pd` building the capacity-state list.
Arguments after `cpu`: states still to build, loop index `i`, current value
of `freq` (the floor handed to the callback), `prev_freq`, `prev_opp_eff`.
The loop header increments `freq` after each iteration, so the next floor
is the returned frequency plus one. -/
def buildLoop (ap : Sampler) (cpu : Nat) :
    Nat → Nat → Nat → Nat → Nat → BuildResult
  | 0, _, _, _, _ => ⟨[], [], [], none⟩
  | n + 1, i, freq, prev_freq, prev_opp_eff =>
    match ap freq cpu with
    | none => ⟨[], [freq], [], some (.samplerError i)⟩
    | some (power0, freq0) =>
      if freq0 % U64 ≤ prev_freq then
        ⟨[], [freq], [], some (.nonIncreasingFreq i)⟩
      else if power0 % U64 = 0 ∨ EM_CPU_MAX_POWER < power0 % U64 then
        ⟨[], [freq], [], some (.invalidPower i)⟩
      else
        let rest := buildLoop ap cpu n (i + 1) (freq0 % U64 + 1) (freq0 % U64)
          ((freq0 % U64) / (power0 % U64))
        ⟨(power0 % U64, freq0 % U64) :: rest.entries,
          freq :: rest.floors,
          if prev_opp_eff ≤ (freq0 % U64) / (power0 % U64) then i :: rest.warns
            else rest.warns,
          rest.err⟩

/-- The build loop as entered by `em_create_pd`: `i = 0`, `freq = 0`,
`prev_freq = 0`, `prev_opp_eff = ULONG_MAX`. -/
def buildOf (ap : Sampler) (span : List Nat) (n : Nat) : BuildResult :=
  buildLoop ap (cpumask_first span) n 0 0 0 ULONG_MAX

/-- `table[nr_states - 1]` read as the last element of a list (0 for the
empty list, which `em_register_perf_domain` never passes). -/
def lastD : List Nat → Nat
  | [] => 0
  | [x] => x
  | _ :: x :: xs => lastD (x :: xs)

/-- Last row of a capacity-state table. -/
def lastEntry : List em_cap_state → em_cap_state
  | [] => default
  | [e] => e
  | _ :: e :: es => lastEntry (e :: es)

/-- The cost loop of `em_create_pd` plus the field assignments:
`fmax = (u64) table[nr_states-1].frequency` and, for every row,
`cost = div64_u64(fmax * power, frequency)` where the multiplication is a
wrapping 64-bit product. -/
def mkDomain (span : List Nat) (n : Nat) (r : BuildResult) : em_perf_domain :=
  let fmax := lastD (r.entries.map Prod.snd)
  { table := r.entries.map fun e =>
      { frequency := e.2, power := e.1, cost := (fmax * e.1) % U64 / e.2 },
    nr_cap_states := n,
    cpus := span }

/-- `em_create_pd`: NULL when `active_power` is absent or the build loop
aborts, otherwise the fully populated domain. -/
def em_create_pd (span : List Nat) (nr_states : Nat) (cb : em_data_callback) :
    Option em_perf_domain :=
  match cb.active_power with
  | none => none
  | some ap =>
    match (buildOf ap span nr_states).err with
    | some _ => none
    | none => some (mkDomain span nr_states (buildOf ap span nr_states))

/-- Return value of `em_register_perf_domain`: `0`, `-EINVAL`, `-EEXIST`.
(`-ENODEV` arises only from a kobject allocation failure, which is not
modelled.) -/
inductive RegResult where
  | ok
  | einval
  | eexist
deriving DecidableEq, Repr

/-- Global state: the per-cpu `em_data` slots hold addresses of published
`em_perf_domain` objects living in an address-indexed heap; `next` is the
next fresh address. -/
structure EMState where
  em_data : Nat → Option Nat
  heap : Nat → Option em_perf_domain
  next : Nat

/-- `em_cpu_get`: `READ_ONCE(per_cpu(em_data, cpu))`, the published pointer
(or NULL). -/
def em_cpu_get (st : EMState) (cpu : Nat) : Option Nat := st.em_data cpu

/-- Dereference of the pointer returned by `em_cpu_get`: the domain a reader
observes through cpu's slot. -/
def em_cpu_domain (st : EMState) (cpu : Nat) : Option em_perf_domain :=
  (em_cpu_get st cpu).bind st.heap

/-- The `for_each_cpu` check loop of `em_register_perf_domain`: per cpu,
first the already-registered check (`-EEXIST`), then the
capacity-consistency check (`-EINVAL`), threading `prev_cap`.  `none` means
the loop ran to completion. -/
def checkLoop (d : Nat → Option Nat) (cap : Nat → Nat) :
    List Nat → Nat → Option RegResult
  | [], _ => none
  | cpu :: rest, prev_cap =>
    if (d cpu).isSome then some .eexist
    else if prev_cap ≠ 0 ∧ prev_cap ≠ cap cpu then some .einval
    else checkLoop d cap rest (cap cpu)

/-- The publication loop: `smp_store_release` of the same pointer into every
cpu slot of the span, after placing the new domain at a fresh address. -/
def publish (st : EMState) (span : List Nat) (pd : em_perf_domain) : EMState :=
  { em_data := fun c => if c ∈ span then some st.next else st.em_data c,
    heap := fun a => if a = st.next then some pd else st.heap a,
    next := st.next + 1 }

/-- `em_register_perf_domain`.  `span = none` and `cb = none` model NULL
pointer arguments; `cap` models the external `arch_scale_cpu_capacity`
collaborator.  The creation of the top-level `energy_model` kobject is
assumed to succeed (its failure, `-ENODEV`, is an allocation failure of the
environment, not of this algorithm). -/
def em_register_perf_domain (st : EMState) (cap : Nat → Nat)
    (span : Option (List Nat)) (nr_states : Nat)
    (cb : Option em_data_callback) : RegResult × EMState :=
  match span, cb with
  | none, _ => (.einval, st)
  | some _, none => (.einval, st)
  | some cpus, some cb =>
    if nr_states = 0 then (.einval, st)
    else
      match checkLoop st.em_data cap cpus 0 with
      | some r => (r, st)
      | none =>
        match em_create_pd cpus nr_states cb with
        | none => (.einval, st)
        | some pd => (.ok, publish st cpus pd)

/-- Frequency of the last (highest) table row, the normalization point of
the cost metric. -/
def fmaxOf (pd : em_perf_domain) : Nat :=
  lastD (pd.table.map em_cap_state.frequency)

/-- Strict frequency order on table rows. -/
def freqLt (a b : em_cap_state) : Prop := a.frequency < b.frequency

/-- Successor of the frequency component of a build entry. -/
def succOfSnd (e : Nat × Nat) : Nat := e.2 + 1

/-- The cost formula exactly as the spec states it, as an executable check:
every row's cost equals `(last frequency * power) / frequency` computed
without any wrap-around. -/
def costClaimHolds (pd : em_perf_domain) : Bool :=
  pd.table.all fun e => e.cost == fmaxOf pd * e.power / e.frequency

/-- The relational cost property as an executable check: every row's cost is
at least its power, and the last row's cost equals its power. -/
def costGeClaimHolds (pd : em_perf_domain) : Bool :=
  (pd.table.all fun e => e.power ≤ e.cost) &&
    ((lastEntry pd.table).cost == (lastEntry pd.table).power)

/- Concrete instances used by witnesses and counterexamples. -/

/-- The empty initial state: no cpu registered, empty heap. -/
def st0 : EMState := ⟨fun _ => none, fun _ => none, 0⟩

/-- A capacity query reporting 1 for every cpu. -/
def cap1 : Nat → Nat := fun _ => 1

/-- The spec's concrete scenario: four operating points
(10,100), (15,200), (25,400), (60,800), served by floor ranges. -/
def sampler4 : Sampler := fun fr _ =>
  if fr ≤ 100 then some (10, 100)
  else if fr ≤ 200 then some (15, 200)
  else if fr ≤ 400 then some (25, 400)
  else some (60, 800)

/-- Callback carrying `sampler4`. -/
def cb4 : em_data_callback := ⟨some sampler4⟩

/-- A sampler whose accepted operating points make `fmax * power` wrap
around 2^64: (4, 2^62) then (1, 2^63). -/
def samplerOvf : Sampler := fun fr _ =>
  if fr = 0 then some (4, 2 ^ 62) else some (1, 2 ^ 63)

/-- Callback carrying `samplerOvf`. -/
def cbOvf : em_data_callback := ⟨some samplerOvf⟩

/-- The spec's concrete failure scenario: frequency 100 then 90. -/
def samplerDecr : Sampler := fun fr _ =>
  if fr = 0 then some (10, 100) else some (5, 90)

/-- A sampler reporting zero power. -/
def samplerZeroP : Sampler := fun _ _ => some (0, 50)

/-- A sampler with one warning-free small step, for the step witnesses. -/
def samplerFlat : Sampler := fun _ _ => some (5, 10)

/-- A state in which cpu 2 is already registered (address 0 holding a
one-row domain), everything else free. -/
def st1 : EMState :=
  ⟨fun c => if c = 2 then some 0 else none,
   fun a => if a = 0 then some ⟨[⟨100, 10, 10⟩], 1, [2]⟩ else none,
   1⟩

/-- A capacity query on which cpus 0 and 1 differ. -/
def capDiff : Nat → Nat := fun c => c + 1

/-- A capacity query reporting 5 everywhere. -/
def cap5 : Nat → Nat := fun _ => 5

/- Helper lemmas about the build loop. -/

lemma U64_pos : 0 < U64 := by decide

lemma buildLoop_zero (ap : Sampler) (cpu i fr pf pe : Nat) :
    buildLoop ap cpu 0 i fr pf pe = ⟨[], [], [], none⟩ := rfl

lemma buildLoop_succ_none (ap : Sampler) (cpu n i fr pf pe : Nat)
    (h : ap fr cpu = none) :
    buildLoop ap cpu (n + 1) i fr pf pe =
      ⟨[], [fr], [], some (.samplerError i)⟩ := by
  simp [buildLoop, h]

lemma buildLoop_succ_freqle (ap : Sampler) (cpu n i fr pf pe p0 f0 : Nat)
    (h : ap fr cpu = some (p0, f0)) (hf : f0 % U64 ≤ pf) :
    buildLoop ap cpu (n + 1) i fr pf pe =
      ⟨[], [fr], [], some (.nonIncreasingFreq i)⟩ := by
  simp [buildLoop, h, hf]

lemma buildLoop_succ_badp (ap : Sampler) (cpu n i fr pf pe p0 f0 : Nat)
    (h : ap fr cpu = some (p0, f0)) (hf : pf < f0 % U64)
    (hp : p0 % U64 = 0 ∨ EM_CPU_MAX_POWER < p0 % U64) :
    buildLoop ap cpu (n + 1) i fr pf pe =
      ⟨[], [fr], [], some (.invalidPower i)⟩ := by
  simp [buildLoop, h, hp, Nat.not_le.mpr hf]

lemma buildLoop_succ_ok (ap : Sampler) (cpu n i fr pf pe p0 f0 : Nat)
    (h : ap fr cpu = some (p0, f0)) (hf : pf < f0 % U64)
    (hp : ¬(p0 % U64 = 0 ∨ EM_CPU_MAX_POWER < p0 % U64)) :
    buildLoop ap cpu (n + 1) i fr pf pe =
      ⟨(p0 % U64, f0 % U64) ::
          (buildLoop ap cpu n (i + 1) (f0 % U64 + 1) (f0 % U64)
            (f0 % U64 / (p0 % U64))).entries,
        fr :: (buildLoop ap cpu n (i + 1) (f0 % U64 + 1) (f0 % U64)
            (f0 % U64 / (p0 % U64))).floors,
        if pe ≤ f0 % U64 / (p0 % U64) then
          i :: (buildLoop ap cpu n (i + 1) (f0 % U64 + 1) (f0 % U64)
            (f0 % U64 / (p0 % U64))).warns
        else (buildLoop ap cpu n (i + 1) (f0 % U64 + 1) (f0 % U64)
            (f0 % U64 / (p0 % U64))).warns,
        (buildLoop ap cpu n (i + 1) (f0 % U64 + 1) (f0 % U64)
            (f0 % U64 / (p0 % U64))).err⟩ := by
  simp [buildLoop, h, hp, Nat.not_le.mpr hf]

/-- Invariants of a completed build loop: one entry per requested state,
frequencies chained strictly above `prev_freq`, powers positive and within
the 16-bit bound, frequencies within the machine word. -/
lemma buildLoop_ok_spec (ap : Sampler) (cpu : Nat) :
    ∀ n i fr pf pe, (buildLoop ap cpu n i fr pf pe).err = none →
      (buildLoop ap cpu n i fr pf pe).entries.length = n ∧
      List.Chain (· < ·) pf
        ((buildLoop ap cpu n i fr pf pe).entries.map Prod.snd) ∧
      ∀ e ∈ (buildLoop ap cpu n i fr pf pe).entries,
        0 < e.1 ∧ e.1 ≤ EM_CPU_MAX_POWER ∧ e.2 < U64 := by
  intro n
  induction n with
  | zero =>
    intro i fr pf pe _
    simp [buildLoop_zero]
  | succ n ih =>
    intro i fr pf pe h
    rcases hap : ap fr cpu with _ | ⟨p0, f0⟩
    · rw [buildLoop_succ_none ap cpu n i fr pf pe hap] at h
      simp at h
    · by_cases hf : f0 % U64 ≤ pf
      · rw [buildLoop_succ_freqle ap cpu n i fr pf pe p0 f0 hap hf] at h
        simp at h
      · replace hf := Nat.not_le.mp hf
        by_cases hp : p0 % U64 = 0 ∨ EM_CPU_MAX_POWER < p0 % U64
        · rw [buildLoop_succ_badp ap cpu n i fr pf pe p0 f0 hap hf hp] at h
          simp at h
        · rw [buildLoop_succ_ok ap cpu n i fr pf pe p0 f0 hap hf hp] at h ⊢
          have herr : (buildLoop ap cpu n (i + 1) (f0 % U64 + 1) (f0 % U64)
              (f0 % U64 / (p0 % U64))).err = none := h
          obtain ⟨hlen, hch, hbd⟩ :=
            ih (i + 1) (f0 % U64 + 1) (f0 % U64) (f0 % U64 / (p0 % U64)) herr
          push_neg at hp
          refine ⟨by simp [hlen], ?_, ?_⟩
          · exact List.Chain.cons hf hch
          · intro e he
            rcases List.mem_cons.mp he with rfl | he'
            · exact ⟨Nat.pos_of_ne_zero hp.1, hp.2, Nat.mod_lt _ U64_pos⟩
            · exact hbd e he'

/-- Every abort of the build loop carries an index at least the starting
index. -/
lemma buildLoop_err_index (ap : Sampler) (cpu : Nat) :
    ∀ n i fr pf pe e, (buildLoop ap cpu n i fr pf pe).err = some e →
      i ≤ e.index := by
  intro n
  induction n with
  | zero => intro i fr pf pe e h; simp [buildLoop_zero] at h
  | succ n ih =>
    intro i fr pf pe e h
    rcases hap : ap fr cpu with _ | ⟨p0, f0⟩
    · rw [buildLoop_succ_none ap cpu n i fr pf pe hap] at h
      simp at h
      simp [← h, BuildError.index]
    · by_cases hf : f0 % U64 ≤ pf
      · rw [buildLoop_succ_freqle ap cpu n i fr pf pe p0 f0 hap hf] at h
        simp at h
        simp [← h, BuildError.index]
      · replace hf := Nat.not_le.mp hf
        by_cases hp : p0 % U64 = 0 ∨ EM_CPU_MAX_POWER < p0 % U64
        · rw [buildLoop_succ_badp ap cpu n i fr pf pe p0 f0 hap hf hp] at h
          simp at h
          simp [← h, BuildError.index]
        · rw [buildLoop_succ_ok ap cpu n i fr pf pe p0 f0 hap hf hp] at h
          exact Nat.le_of_succ_le
            (ih (i + 1) (f0 % U64 + 1) (f0 % U64) (f0 % U64 / (p0 % U64)) e h)

/-- Floors of a completed build loop: one per requested state, each at most
the frequency accepted at that iteration, strictly increasing, and after
the first one each equal to the previously accepted frequency plus one.
The invariant `fr ≤ pf + 1` holds at loop entry (`0 ≤ 0 + 1`) and is
maintained by the loop header's increment. -/
lemma buildLoop_ok_floors (ap : Sampler) (cpu : Nat) :
    ∀ n i fr pf pe, fr ≤ pf + 1 →
      (buildLoop ap cpu n i fr pf pe).err = none →
      (buildLoop ap cpu n i fr pf pe).floors.length = n ∧
      List.Forall₂ (· ≤ ·) (buildLoop ap cpu n i fr pf pe).floors
        ((buildLoop ap cpu n i fr pf pe).entries.map Prod.snd) ∧
      List.Chain' (· < ·) (buildLoop ap cpu n i fr pf pe).floors ∧
      (n ≠ 0 → (buildLoop ap cpu n i fr pf pe).floors =
        fr :: ((buildLoop ap cpu n i fr pf pe).entries.map succOfSnd).dropLast) := by
  intro n
  induction n with
  | zero =>
    intro i fr pf pe _ _
    simp [buildLoop_zero]
  | succ n ih =>
    intro i fr pf pe hfr h
    rcases hap : ap fr cpu with _ | ⟨p0, f0⟩
    · rw [buildLoop_succ_none ap cpu n i fr pf pe hap] at h
      simp at h
    · by_cases hf : f0 % U64 ≤ pf
      · rw [buildLoop_succ_freqle ap cpu n i fr pf pe p0 f0 hap hf] at h
        simp at h
      · replace hf := Nat.not_le.mp hf
        by_cases hp : p0 % U64 = 0 ∨ EM_CPU_MAX_POWER < p0 % U64
        · rw [buildLoop_succ_badp ap cpu n i fr pf pe p0 f0 hap hf hp] at h
          simp at h
        · rw [buildLoop_succ_ok ap cpu n i fr pf pe p0 f0 hap hf hp] at h ⊢
          have herr : (buildLoop ap cpu n (i + 1) (f0 % U64 + 1) (f0 % U64)
              (f0 % U64 / (p0 % U64))).err = none := h
          obtain ⟨hlen, hfa, hch, hform⟩ :=
            ih (i + 1) (f0 % U64 + 1) (f0 % U64) (f0 % U64 / (p0 % U64))
              (Nat.le_refl _) herr
          have hfle : fr ≤ f0 % U64 := Nat.le_trans hfr hf
          refine ⟨by simp [hlen], ?_, ?_, ?_⟩
          · exact List.Forall₂.cons hfle hfa
          · rcases n with _ | m
            · simp [buildLoop_zero]
            · rw [List.chain'_cons']
              refine ⟨?_, hch⟩
              intro y hy
              rw [hform (Nat.succ_ne_zero m)] at hy
              simp at hy
              rw [← hy]
              exact Nat.lt_succ_of_le hfle
          · intro _
            rcases n with _ | m
            · have h0 : (buildLoop ap cpu 0 (i + 1) (f0 % U64 + 1) (f0 % U64)
                  (f0 % U64 / (p0 % U64))) = ⟨[], [], [], none⟩ :=
                buildLoop_zero ap cpu (i + 1) (f0 % U64 + 1) (f0 % U64)
                  (f0 % U64 / (p0 % U64))
              simp [h0]
            · have hne : (buildLoop ap cpu (m + 1) (i + 1) (f0 % U64 + 1)
                  (f0 % U64) (f0 % U64 / (p0 % U64))).entries ≠ [] := by
                have := (buildLoop_ok_spec ap cpu (m + 1) (i + 1) (f0 % U64 + 1)
                  (f0 % U64) (f0 % U64 / (p0 % U64)) herr).1
                intro hnil
                rw [hnil] at this
                simp at this
              rcases hent : (buildLoop ap cpu (m + 1) (i + 1) (f0 % U64 + 1)
                  (f0 % U64) (f0 % U64 / (p0 % U64))).entries with _ | ⟨q, qs⟩
              · exact absurd hent hne
              · have hrec := hform (Nat.succ_ne_zero m)
                rw [hent] at hrec
                simp only [List.map_cons, List.dropLast_cons₂, hrec, succOfSnd]

/- Helper lemmas about the registration path. -/

/-- The per-cpu check loop only ever aborts with `-EEXIST` or `-EINVAL`. -/
lemma checkLoop_ne_ok (d : Nat → Option Nat) (cap : Nat → Nat) :
    ∀ l p r, checkLoop d cap l p = some r → r ≠ .ok := by
  intro l
  induction l with
  | nil => intro p r h; simp [checkLoop] at h
  | cons c t ih =>
    intro p r h
    by_cases hd : (d c).isSome
    · simp [checkLoop, hd] at h
      rw [← h]
      simp
    · by_cases hc : p ≠ 0 ∧ p ≠ cap c
      · simp [checkLoop, hd, hc] at h
        rw [← h]
        simp
      · simp only [checkLoop, hd, if_neg hc, if_false] at h
        exact ih (cap c) r h

/-- If every cpu of the list reports capacity `k`, some cpu is already
registered, and the accumulated `prev_cap` is 0 or `k`, the check loop
aborts with `-EEXIST`. -/
lemma checkLoop_eexist (d : Nat → Option Nat) (cap : Nat → Nat) (k : Nat) :
    ∀ l p, (∀ c ∈ l, cap c = k) → (∃ c ∈ l, (d c).isSome) →
      (p = 0 ∨ p = k) → checkLoop d cap l p = some .eexist := by
  intro l
  induction l with
  | nil => intro p _ hex _; simp at hex
  | cons c t ih =>
    intro p hcap hex hp
    by_cases hd : (d c).isSome
    · simp [checkLoop, hd]
    · have hck : cap c = k := hcap c (List.mem_cons_self c t)
      have hcond : ¬(p ≠ 0 ∧ p ≠ cap c) := by
        rcases hp with rfl | rfl
        · simp
        · rw [hck]
          simp
      simp only [checkLoop, hd, if_false, if_neg hcond]
      refine ih (cap c) (fun x hx => hcap x (List.mem_cons_of_mem c hx)) ?_
        (Or.inr hck)
      rcases hex with ⟨x, hx, hxs⟩
      rcases List.mem_cons.mp hx with rfl | hx'
      · exact absurd hxs hd
      · exact ⟨x, hx', hxs⟩

/-- Decomposition of a successful registration: `nr_states` was nonzero, the
per-cpu checks passed, a domain was created and published at the fresh
address. -/
lemma register_ok_cases (st : EMState) (cap : Nat → Nat) (cpus : List Nat)
    (n : Nat) (cb : em_data_callback) (st' : EMState)
    (h : em_register_perf_domain st cap (some cpus) n (some cb) = (.ok, st')) :
    n ≠ 0 ∧ checkLoop st.em_data cap cpus 0 = none ∧
      ∃ pd, em_create_pd cpus n cb = some pd ∧ st' = publish st cpus pd := by
  by_cases hn : n = 0
  · simp [em_register_perf_domain, hn] at h
  · rcases hcl : checkLoop st.em_data cap cpus 0 with _ | r
    · rcases hcp : em_create_pd cpus n cb with _ | pd
      · simp [em_register_perf_domain, hn, hcl, hcp] at h
      · simp [em_register_perf_domain, hn, hcl, hcp] at h
        exact ⟨hn, rfl, pd, rfl, h.symm⟩
    · have hne := checkLoop_ne_ok st.em_data cap cpus 0 r hcl
      simp [em_register_perf_domain, hn, hcl] at h
      exact absurd h.1 hne

/-- Decomposition of a successful `em_create_pd`. -/
lemma em_create_pd_some (span : List Nat) (n : Nat) (cb : em_data_callback)
    (pd : em_perf_domain) (h : em_create_pd span n cb = some pd) :
    ∃ ap, cb.active_power = some ap ∧ (buildOf ap span n).err = none ∧
      pd = mkDomain span n (buildOf ap span n) := by
  rcases hap : cb.active_power with _ | ap
  · simp [em_create_pd, hap] at h
  · rcases herr : (buildOf ap span n).err with _ | e
    · simp [em_create_pd, hap, herr] at h
      exact ⟨ap, rfl, herr, h.symm⟩
    · simp [em_create_pd, hap, herr] at h

/-- A lookup through any cpu of the span after publication yields the
published domain. -/
lemma lookup_publish (st : EMState) (cpus : List Nat) (pd : em_perf_domain)
    (c : Nat) (hc : c ∈ cpus) :
    em_cpu_domain (publish st cpus pd) c = some pd := by
  simp [em_cpu_domain, em_cpu_get, publish, hc]

/-- The domain looked up through any cpu of the span after a successful
registration is the created one. -/
lemma register_ok_domain (st : EMState) (cap : Nat → Nat) (cpus : List Nat)
    (n : Nat) (cb : em_data_callback) (st' : EMState) (c : Nat)
    (pd : em_perf_domain)
    (hreg : em_register_perf_domain st cap (some cpus) n (some cb) = (.ok, st'))
    (hc : c ∈ cpus) (hpd : em_cpu_domain st' c = some pd) :
    em_create_pd cpus n cb = some pd := by
  obtain ⟨hn, hcl, pd0, hcp, rfl⟩ :=
    register_ok_cases st cap cpus n cb st' hreg
  rw [lookup_publish st cpus pd0 c hc] at hpd
  rw [Option.some.injEq] at hpd
  rw [← hpd]
  exact hcp

/- Helper lemmas about list ends. -/

lemma lastD_mem : ∀ (l : List Nat), l ≠ [] → lastD l ∈ l := by
  intro l
  induction l with
  | nil => intro h; exact absurd rfl h
  | cons a t ih =>
    intro _
    rcases t with _ | ⟨b, t'⟩
    · simp [lastD]
    · have := ih (List.cons_ne_nil b t')
      simp only [lastD]
      exact List.mem_cons_of_mem a this

lemma le_lastD : ∀ (l : List Nat), l.Pairwise (· < ·) → ∀ x ∈ l, x ≤ lastD l := by
  intro l
  induction l with
  | nil => intro _ x hx; simp at hx
  | cons a t ih =>
    intro hp x hx
    rcases List.pairwise_cons.mp hp with ⟨ha, ht⟩
    rcases t with _ | ⟨b, t'⟩
    · simp at hx
      simp [hx, lastD]
    · simp only [lastD]
      rcases List.mem_cons.mp hx with rfl | hx'
      · exact Nat.le_of_lt (ha _ (lastD_mem (b :: t') (List.cons_ne_nil b t')))
      · exact ih ht x hx'

lemma lastEntry_mem : ∀ (l : List em_cap_state), l ≠ [] → lastEntry l ∈ l := by
  intro l
  induction l with
  | nil => intro h; exact absurd rfl h
  | cons a t ih =>
    intro _
    rcases t with _ | ⟨b, t'⟩
    · simp [lastEntry]
    · have := ih (List.cons_ne_nil b t')
      simp only [lastEntry]
      exact List.mem_cons_of_mem a this

lemma lastEntry_map_frequency :
    ∀ (l : List em_cap_state), l ≠ [] →
      (lastEntry l).frequency = lastD (l.map em_cap_state.frequency) := by
  intro l
  induction l with
  | nil => intro h; exact absurd rfl h
  | cons a t ih =>
    intro _
    rcases t with _ | ⟨b, t'⟩
    · simp [lastEntry, lastD]
    · simp only [lastEntry, List.map_cons, lastD]
      exact ih (List.cons_ne_nil b t')

/- The published table's row invariants, shared by several claims. -/

lemma mkDomain_table_map_freq (span : List Nat) (n : Nat) (r : BuildResult) :
    (mkDomain span n r).table.map em_cap_state.frequency =
      r.entries.map Prod.snd := by
  simp only [mkDomain, List.map_map]
  rfl

lemma fmaxOf_mkDomain (span : List Nat) (n : Nat) (r : BuildResult) :
    fmaxOf (mkDomain span n r) = lastD (r.entries.map Prod.snd) := by
  rw [fmaxOf, mkDomain_table_map_freq]

/-- Row invariants of every table produced by `em_create_pd`: the row count,
the strict frequency order, and per row the frequency/power bounds together
with the literal cost expression stored by the cost loop. -/
lemma table_row_spec (span : List Nat) (n : Nat) (cb : em_data_callback)
    (pd : em_perf_domain) (h : em_create_pd span n cb = some pd) :
    pd.table.length = n ∧
    (pd.table.map em_cap_state.frequency).Pairwise (· < ·) ∧
    ∀ e ∈ pd.table,
      0 < e.frequency ∧ e.frequency ≤ fmaxOf pd ∧
      0 < e.power ∧ e.power ≤ EM_CPU_MAX_POWER ∧
      e.cost = (fmaxOf pd * e.power) % U64 / e.frequency := by
  obtain ⟨ap, hap, herr, rfl⟩ := em_create_pd_some span n cb pd h
  obtain ⟨hlen, hch, hbd⟩ :=
    buildLoop_ok_spec ap (cpumask_first span) n 0 0 0 ULONG_MAX herr
  have hpw : (((buildOf ap span n).entries.map Prod.snd)).Pairwise (· < ·) := by
    have hch' : List.Chain' (· < ·)
        (0 :: (buildOf ap span n).entries.map Prod.snd) := hch
    have := (List.chain'_iff_pairwise).mp hch'
    exact (List.pairwise_cons.mp this).2
  have hpos : ∀ f ∈ (buildOf ap span n).entries.map Prod.snd, 0 < f := by
    have hch' : List.Chain' (· < ·)
        (0 :: (buildOf ap span n).entries.map Prod.snd) := hch
    have := (List.chain'_iff_pairwise).mp hch'
    exact (List.pairwise_cons.mp this).1
  refine ⟨?_, ?_, ?_⟩
  · simpa [mkDomain, buildOf] using hlen
  · rw [mkDomain_table_map_freq]
    exact hpw
  · intro e he
    simp only [mkDomain, List.mem_map] at he
    obtain ⟨q, hq, rfl⟩ := he
    obtain ⟨hq1, hq2, _⟩ := hbd q hq
    have hfm : q.2 ∈ (buildOf ap span n).entries.map Prod.snd :=
      List.mem_map.mpr ⟨q, hq, rfl⟩
    refine ⟨hpos q.2 hfm, ?_, hq1, hq2, ?_⟩
    · rw [fmaxOf_mkDomain]
      exact le_lastD _ hpw q.2 hfm
    · rw [fmaxOf_mkDomain]

/-- Claim C1: for every successful registration, the table published for any
unit of the span has exactly `nr_states` rows, its frequencies are strictly
increasing row to row, and every frequency is strictly positive. -/
theorem C1_table_length_sorted (st : EMState) (cap : Nat → Nat)
    (cpus : List Nat) (n : Nat) (cb : em_data_callback) (st' : EMState)
    (c : Nat) (pd : em_perf_domain)
    (hreg : em_register_perf_domain st cap (some cpus) n (some cb) = (.ok, st'))
    (hc : c ∈ cpus) (hpd : em_cpu_domain st' c = some pd) :
    pd.table.length = n ∧ pd.table.Pairwise freqLt ∧
      ∀ e ∈ pd.table, 0 < e.frequency := by
  have hcp := register_ok_domain st cap cpus n cb st' c pd hreg hc hpd
  obtain ⟨h1, h2, h3⟩ := table_row_spec cpus n cb pd hcp
  have hpw : pd.table.Pairwise fun a b => a.frequency < b.frequency :=
    List.pairwise_map.mp h2
  exact ⟨h1, hpw, fun e he => (h3 e he).1⟩

/-- Witness for C1 at the spec's concrete scenario (four operating points,
one cpu): the published table has 4 rows, strictly increasing frequencies,
and its first row's frequency is positive. -/
theorem C1_table_length_sorted_witness :
    (⟨[⟨100, 10, 80⟩, ⟨200, 15, 60⟩, ⟨400, 25, 50⟩, ⟨800, 60, 60⟩], 4, [0]⟩ :
      em_perf_domain).table.length = 4 ∧
    (⟨[⟨100, 10, 80⟩, ⟨200, 15, 60⟩, ⟨400, 25, 50⟩, ⟨800, 60, 60⟩], 4, [0]⟩ :
      em_perf_domain).table.Pairwise freqLt ∧
    0 < (⟨100, 10, 80⟩ : em_cap_state).frequency := by
  have H := C1_table_length_sorted st0 cap1 [0] 4 cb4
    (em_register_perf_domain st0 cap1 (some [0]) 4 (some cb4)).2 0
    (⟨[⟨100, 10, 80⟩, ⟨200, 15, 60⟩, ⟨400, 25, 50⟩, ⟨800, 60, 60⟩], 4, [0]⟩ :
      em_perf_domain)
    rfl (by decide) rfl
  exact ⟨H.1, H.2.1, H.2.2 ⟨100, 10, 80⟩ (by decide)⟩

/-- Claim C2, amended: every published row's cost equals
`((last frequency * power) mod 2^64) / frequency` — the 64-bit product
wraps — and therefore equals the exact `last frequency * power / frequency`
whenever that product fits in 64 bits. -/
theorem C2_cost_formula (st : EMState) (cap : Nat → Nat) (cpus : List Nat)
    (n : Nat) (cb : em_data_callback) (st' : EMState) (c : Nat)
    (pd : em_perf_domain)
    (hreg : em_register_perf_domain st cap (some cpus) n (some cb) = (.ok, st'))
    (hc : c ∈ cpus) (hpd : em_cpu_domain st' c = some pd) :
    ∀ e ∈ pd.table,
      e.cost = (fmaxOf pd * e.power) % U64 / e.frequency ∧
      (fmaxOf pd * e.power < U64 →
        e.cost = fmaxOf pd * e.power / e.frequency) := by
  have hcp := register_ok_domain st cap cpus n cb st' c pd hreg hc hpd
  obtain ⟨_, _, h3⟩ := table_row_spec cpus n cb pd hcp
  intro e he
  obtain ⟨_, _, _, _, hcost⟩ := h3 e he
  exact ⟨hcost, fun hlt => by rw [hcost, Nat.mod_eq_of_lt hlt]⟩

/-- Counterexample to C2 as stated: a successful registration (operating
points (4, 2^62) and (1, 2^63)) whose published table violates the exact
cost formula — the first row's cost is 0, not (2^63 * 4) / 2^62 = 8,
because the u64 product 2^65 wraps to 0. -/
theorem C2_cost_formula_cex :
    (em_register_perf_domain st0 cap1 (some [0]) 2 (some cbOvf)).1 =
      RegResult.ok ∧
    (em_cpu_domain (em_register_perf_domain st0 cap1 (some [0]) 2
      (some cbOvf)).2 0).map costClaimHolds = some false := by
  exact ⟨rfl, rfl⟩

/-- Witness for C2 at the spec's concrete scenario: row (200, 15) of the
published table costs 60 = 800 * 15 / 200, both in wrapping and in exact
arithmetic. -/
theorem C2_cost_formula_witness :
    (⟨200, 15, 60⟩ : em_cap_state).cost =
      (fmaxOf (⟨[⟨100, 10, 80⟩, ⟨200, 15, 60⟩, ⟨400, 25, 50⟩,
        ⟨800, 60, 60⟩], 4, [0]⟩ : em_perf_domain) *
        (⟨200, 15, 60⟩ : em_cap_state).power) % U64 /
        (⟨200, 15, 60⟩ : em_cap_state).frequency ∧
    (⟨200, 15, 60⟩ : em_cap_state).cost =
      fmaxOf (⟨[⟨100, 10, 80⟩, ⟨200, 15, 60⟩, ⟨400, 25, 50⟩,
        ⟨800, 60, 60⟩], 4, [0]⟩ : em_perf_domain) *
        (⟨200, 15, 60⟩ : em_cap_state).power /
        (⟨200, 15, 60⟩ : em_cap_state).frequency := by
  have H := C2_cost_formula st0 cap1 [0] 4 cb4
    (em_register_perf_domain st0 cap1 (some [0]) 4 (some cb4)).2 0
    (⟨[⟨100, 10, 80⟩, ⟨200, 15, 60⟩, ⟨400, 25, 50⟩, ⟨800, 60, 60⟩], 4, [0]⟩ :
      em_perf_domain)
    rfl (by decide) rfl (⟨200, 15, 60⟩ : em_cap_state) (by decide)
  exact ⟨H.1, H.2 (by decide)⟩

/-- Claim C3: if the build loop aborts at any index — sampler error,
non-increasing frequency or invalid power — the registration returns an
error, the global state is unchanged, and every unit of the attempted span
whose lookup was empty before still looks up empty. -/
theorem C3_abort_no_commit (st : EMState) (cap : Nat → Nat) (cpus : List Nat)
    (n : Nat) (ap : Sampler) (e : BuildError)
    (herr : (buildOf ap cpus n).err = some e) :
    (em_register_perf_domain st cap (some cpus) n (some ⟨some ap⟩)).1 ≠
      RegResult.ok ∧
    (em_register_perf_domain st cap (some cpus) n (some ⟨some ap⟩)).2 = st ∧
    ∀ c ∈ cpus, em_cpu_domain st c = none →
      em_cpu_domain
        (em_register_perf_domain st cap (some cpus) n (some ⟨some ap⟩)).2 c =
        none := by
  have hcp : em_create_pd cpus n ⟨some ap⟩ = none := by
    simp [em_create_pd, herr]
  have hkey :
      (em_register_perf_domain st cap (some cpus) n (some ⟨some ap⟩)).1 ≠
        RegResult.ok ∧
      (em_register_perf_domain st cap (some cpus) n (some ⟨some ap⟩)).2 = st := by
    by_cases hn : n = 0
    · simp [em_register_perf_domain, hn]
    · rcases hcl : checkLoop st.em_data cap cpus 0 with _ | r
      · simp [em_register_perf_domain, hn, hcl, hcp]
      · have hno := checkLoop_ne_ok st.em_data cap cpus 0 r hcl
        simp [em_register_perf_domain, hn, hcl]
        exact hno
  refine ⟨hkey.1, hkey.2, fun c _ hemp => ?_⟩
  rw [hkey.2]
  exact hemp

/-- Witness for C3 at the spec's concrete failure scenario (frequency 100
then 90): registration does not succeed, nothing changes, cpu 0 still looks
up empty. -/
theorem C3_abort_no_commit_witness :
    (em_register_perf_domain st0 cap1 (some [0]) 2
      (some ⟨some samplerDecr⟩)).1 ≠ RegResult.ok ∧
    (em_register_perf_domain st0 cap1 (some [0]) 2
      (some ⟨some samplerDecr⟩)).2 = st0 ∧
    em_cpu_domain (em_register_perf_domain st0 cap1 (some [0]) 2
      (some ⟨some samplerDecr⟩)).2 0 = none := by
  have H := C3_abort_no_commit st0 cap1 [0] 2 samplerDecr
    (.nonIncreasingFreq 1) rfl
  exact ⟨H.1, H.2.1, H.2.2 0 (by decide) rfl⟩

/-- Claim C4, amended: with well-formed arguments (`nr_states ≠ 0`, callback
present), if some unit of the span already belongs to a domain and no unit
earlier in iteration order trips the capacity-consistency check — in
particular whenever all units report the same capacity, as assumed here —
the call returns `-EEXIST` with the state unchanged, so every previously
registered domain is still retrievable via lookup.  (The two checks are
interleaved per cpu, not staged; see the counterexample.) -/
theorem C4_already_registered (st : EMState) (cap : Nat → Nat)
    (cpus : List Nat) (n : Nat) (cb : em_data_callback) (c0 a k : Nat)
    (hn : n ≠ 0) (hc0 : c0 ∈ cpus) (ha : st.em_data c0 = some a)
    (hcap : ∀ c ∈ cpus, cap c = k) :
    em_register_perf_domain st cap (some cpus) n (some cb) = (.eexist, st) ∧
    ∀ c, em_cpu_domain
      (em_register_perf_domain st cap (some cpus) n (some cb)).2 c =
      em_cpu_domain st c := by
  have hcl : checkLoop st.em_data cap cpus 0 = some .eexist :=
    checkLoop_eexist st.em_data cap k cpus 0 hcap
      ⟨c0, hc0, by simp [ha]⟩ (Or.inl rfl)
  have hres : em_register_perf_domain st cap (some cpus) n (some cb) =
      (.eexist, st) := by
    simp [em_register_perf_domain, hn, hcl]
  exact ⟨hres, fun c => by rw [hres]⟩

/-- Counterexample to C4 as stated: cpu 2 already belongs to a domain, yet
registering span [0, 1, 2] under a capacity query on which cpus 0 and 1
differ returns `-EINVAL`, not `-EEXIST` — the capacity check of an earlier
cpu preempts the already-registered check of a later one. -/
theorem C4_already_registered_cex :
    (st1.em_data 2).isSome = true ∧
    (em_register_perf_domain st1 capDiff (some [0, 1, 2]) 1
      (some cb4)).1 = RegResult.einval ∧
    RegResult.einval ≠ RegResult.eexist := by
  exact ⟨rfl, rfl, by decide⟩

/-- Witness for C4: cpu 2 of span [0, 1, 2] is registered and all three
cpus report capacity 5, so registration returns `-EEXIST` unchanged and
cpu 2 still looks up its old domain. -/
theorem C4_already_registered_witness :
    em_register_perf_domain st1 cap5 (some [0, 1, 2]) 1 (some cb4) =
      (RegResult.eexist, st1) ∧
    em_cpu_domain (em_register_perf_domain st1 cap5 (some [0, 1, 2]) 1
      (some cb4)).2 2 = em_cpu_domain st1 2 := by
  have H := C4_already_registered st1 cap5 [0, 1, 2] 1 cb4 2 0 5
    (by decide) (by decide) rfl (by decide)
  exact ⟨H.1, H.2 2⟩

/-- Claim C5: every row of a successfully created table has
`0 < power ≤ EM_CPU_MAX_POWER`; and a build step whose sample passed the
frequency check fails with `invalidPower` exactly when the sampled power is
0 or exceeds `EM_CPU_MAX_POWER`. -/
theorem C5_invalid_power :
    (∀ (span : List Nat) (n : Nat) (cb : em_data_callback)
        (pd : em_perf_domain), em_create_pd span n cb = some pd →
        ∀ e ∈ pd.table, 0 < e.power ∧ e.power ≤ EM_CPU_MAX_POWER) ∧
    (∀ (ap : Sampler) (cpu n i fr pf pe p0 f0 : Nat),
        ap fr cpu = some (p0, f0) → pf < f0 % U64 →
        ((buildLoop ap cpu (n + 1) i fr pf pe).err =
            some (.invalidPower i) ↔
          p0 % U64 = 0 ∨ EM_CPU_MAX_POWER < p0 % U64)) := by
  constructor
  · intro span n cb pd h e he
    obtain ⟨_, _, h3⟩ := table_row_spec span n cb pd h
    obtain ⟨_, _, hp1, hp2, _⟩ := h3 e he
    exact ⟨hp1, hp2⟩
  · intro ap cpu n i fr pf pe p0 f0 hs hf
    by_cases hp : p0 % U64 = 0 ∨ EM_CPU_MAX_POWER < p0 % U64
    · rw [buildLoop_succ_badp ap cpu n i fr pf pe p0 f0 hs hf hp]
      simp [hp]
    · rw [buildLoop_succ_ok ap cpu n i fr pf pe p0 f0 hs hf hp]
      constructor
      · intro hrec
        have := buildLoop_err_index ap cpu n (i + 1) (f0 % U64 + 1)
          (f0 % U64) (f0 % U64 / (p0 % U64)) (.invalidPower i) hrec
        simp [BuildError.index] at this
      · intro hbad
        exact absurd hbad hp

/-- Witness for C5: in the published table of the spec's scenario the row
(100, 10) has power within bounds, and a step sampling power 0 at an
increased frequency fails with `invalidPower` at its index. -/
theorem C5_invalid_power_witness :
    (0 < (⟨100, 10, 80⟩ : em_cap_state).power ∧
      (⟨100, 10, 80⟩ : em_cap_state).power ≤ EM_CPU_MAX_POWER) ∧
    ((buildLoop samplerZeroP 0 (0 + 1) 0 0 0 ULONG_MAX).err =
        some (.invalidPower 0) ↔
      0 % U64 = 0 ∨ EM_CPU_MAX_POWER < 0 % U64) := by
  refine ⟨?_, ?_⟩
  · exact C5_invalid_power.1 [0] 4 cb4
      (⟨[⟨100, 10, 80⟩, ⟨200, 15, 60⟩, ⟨400, 25, 50⟩, ⟨800, 60, 60⟩], 4,
        [0]⟩ : em_perf_domain)
      rfl (⟨100, 10, 80⟩ : em_cap_state) (by decide)
  · exact C5_invalid_power.2 samplerZeroP 0 0 0 0 0 ULONG_MAX 0 50 rfl
      (by decide)

/-- Claim C6: at a build step whose sample passes the frequency and power
checks but whose efficiency is not below the previous one, construction
does not abort at that step: the entry is recorded, the warning index is
emitted, the loop proceeds with `prev_opp_eff` updated to the new
efficiency (the last argument of the recursive call), and the step's abort
outcome is exactly that of the remaining iterations. -/
theorem C6_warning_nonfatal (ap : Sampler) (cpu n i fr pf pe p0 f0 : Nat)
    (hs : ap fr cpu = some (p0, f0)) (hf : pf < f0 % U64)
    (hp0 : p0 % U64 ≠ 0) (hpm : p0 % U64 ≤ EM_CPU_MAX_POWER)
    (hw : pe ≤ f0 % U64 / (p0 % U64)) :
    buildLoop ap cpu (n + 1) i fr pf pe =
      ⟨(p0 % U64, f0 % U64) ::
          (buildLoop ap cpu n (i + 1) (f0 % U64 + 1) (f0 % U64)
            (f0 % U64 / (p0 % U64))).entries,
        fr :: (buildLoop ap cpu n (i + 1) (f0 % U64 + 1) (f0 % U64)
            (f0 % U64 / (p0 % U64))).floors,
        i :: (buildLoop ap cpu n (i + 1) (f0 % U64 + 1) (f0 % U64)
            (f0 % U64 / (p0 % U64))).warns,
        (buildLoop ap cpu n (i + 1) (f0 % U64 + 1) (f0 % U64)
            (f0 % U64 / (p0 % U64))).err⟩ := by
  rw [buildLoop_succ_ok ap cpu n i fr pf pe p0 f0 hs hf
    (not_or.mpr ⟨hp0, Nat.not_lt.mpr hpm⟩)]
  simp [hw]

/-- Witness for C6: a single step sampling (5, 10) with previous efficiency
0 fires the warning (efficiency 2 is not below 0) and completes with the
entry recorded and no error. -/
theorem C6_warning_nonfatal_witness :
    buildLoop samplerFlat 0 (0 + 1) 0 0 0 0 =
      ⟨[(5 % U64, 10 % U64)], [0], [0], none⟩ := by
  have H := C6_warning_nonfatal samplerFlat 0 0 0 0 0 0 5 10 rfl
    (by decide) (by decide) (by decide) (Nat.zero_le _)
  rw [H]
  rfl

/-- Claim C7: after a successful registration every unit of the span maps to
the same single heap address — the one fresh address the domain was
allocated at — and that address holds a domain: one shared object for the
whole span, not per-unit copies. -/
theorem C7_shared_instance (st : EMState) (cap : Nat → Nat)
    (cpus : List Nat) (n : Nat) (cb : em_data_callback) (st' : EMState)
    (hreg : em_register_perf_domain st cap (some cpus) n (some cb) =
      (.ok, st')) :
    (∀ c ∈ cpus, st'.em_data c = some st.next) ∧
      (st'.heap st.next).isSome = true := by
  obtain ⟨hn, hcl, pd, hcp, rfl⟩ := register_ok_cases st cap cpus n cb st' hreg
  constructor
  · intro c hc
    simp [publish, hc]
  · simp [publish]

/-- Witness for C7: registering span [0, 1] installs the same address 0 into
both slots, and address 0 holds a domain. -/
theorem C7_shared_instance_witness :
    (em_register_perf_domain st0 cap1 (some [0, 1]) 1
      (some cb4)).2.em_data 0 = some 0 ∧
    (em_register_perf_domain st0 cap1 (some [0, 1]) 1
      (some cb4)).2.em_data 1 = some 0 ∧
    ((em_register_perf_domain st0 cap1 (some [0, 1]) 1
      (some cb4)).2.heap 0).isSome = true := by
  have H := C7_shared_instance st0 cap1 [0, 1] 1 cb4
    (em_register_perf_domain st0 cap1 (some [0, 1]) 1 (some cb4)).2 rfl
  exact ⟨H.1 0 (by decide), H.1 1 (by decide), H.2⟩

/-- Claim C8, amended: register rejects with `-EINVAL` a NULL span pointer,
a zero `nr_states`, a NULL callback, and — when the per-cpu checks pass — a
callback without the `active_power` capability, in every case leaving the
state unchanged so that no domain is published for any unit.  (An
empty-but-present span is not rejected; see the counterexample.) -/
theorem C8_invalid_arguments (st : EMState) (cap : Nat → Nat)
    (span : Option (List Nat)) (n : Nat) (cb : Option em_data_callback)
    (cpus : List Nat) :
    (span = none →
      em_register_perf_domain st cap span n cb = (.einval, st)) ∧
    (n = 0 → em_register_perf_domain st cap span n cb = (.einval, st)) ∧
    (cb = none → em_register_perf_domain st cap span n cb = (.einval, st)) ∧
    (span = some cpus → cb = some ⟨none⟩ →
      checkLoop st.em_data cap cpus 0 = none →
      em_register_perf_domain st cap span n cb = (.einval, st)) := by
  refine ⟨?_, ?_, ?_, ?_⟩
  · rintro rfl
    rfl
  · rintro rfl
    rcases span with _ | cpus'
    · rfl
    · rcases cb with _ | cb'
      · rfl
      · simp [em_register_perf_domain]
  · rintro rfl
    rcases span with _ | cpus' <;> rfl
  · rintro rfl rfl hcl
    by_cases hn : n = 0
    · simp [em_register_perf_domain, hn]
    · simp [em_register_perf_domain, hn, hcl, em_create_pd]

/-- Counterexample to C8 as stated: an empty-but-present span is not
rejected with `-EINVAL` — registration with span `some []` succeeds
(returning 0), merely publishing to no cpu. -/
theorem C8_invalid_arguments_cex :
    (em_register_perf_domain st0 cap1 (some []) 1 (some cb4)).1 =
      RegResult.ok ∧
    RegResult.ok ≠ RegResult.einval := by
  exact ⟨rfl, by decide⟩

/-- Witness for C8: each rejected argument shape at concrete inputs — NULL
span, zero states, NULL callback, callback without `active_power`. -/
theorem C8_invalid_arguments_witness :
    em_register_perf_domain st0 cap1 none 5 (some cb4) =
      (RegResult.einval, st0) ∧
    em_register_perf_domain st0 cap1 (some [0]) 0 (some cb4) =
      (RegResult.einval, st0) ∧
    em_register_perf_domain st0 cap1 (some [0]) 3 none =
      (RegResult.einval, st0) ∧
    em_register_perf_domain st0 cap1 (some [0]) 3 (some ⟨none⟩) =
      (RegResult.einval, st0) := by
  refine ⟨?_, ?_, ?_, ?_⟩
  · exact (C8_invalid_arguments st0 cap1 none 5 (some cb4) [0]).1 rfl
  · exact (C8_invalid_arguments st0 cap1 (some [0]) 0 (some cb4) [0]).2.1 rfl
  · exact (C8_invalid_arguments st0 cap1 (some [0]) 3 none [0]).2.2.1 rfl
  · exact (C8_invalid_arguments st0 cap1 (some [0]) 3 (some ⟨none⟩)
      [0]).2.2.2 rfl rfl rfl

/-- Claim C9, amended: during a successful registration the sampler is
invoked exactly `nr_states` times with strictly increasing floors, each
accepted frequency is at or above the floor it was sampled with, and the
floor sequence is 0 followed by each previously accepted frequency plus
one — not the iteration index (see the counterexample). -/
theorem C9_sampler_floors (st : EMState) (cap : Nat → Nat)
    (cpus : List Nat) (n : Nat) (ap : Sampler) (st' : EMState)
    (hreg : em_register_perf_domain st cap (some cpus) n
      (some ⟨some ap⟩) = (.ok, st')) :
    (buildOf ap cpus n).floors.length = n ∧
    List.Chain' Nat.lt (buildOf ap cpus n).floors ∧
    List.Forall₂ Nat.le (buildOf ap cpus n).floors
      ((buildOf ap cpus n).entries.map Prod.snd) ∧
    (buildOf ap cpus n).floors =
      0 :: ((buildOf ap cpus n).entries.map succOfSnd).dropLast := by
  obtain ⟨hn, hcl, pd, hcp, _⟩ :=
    register_ok_cases st cap cpus n ⟨some ap⟩ st' hreg
  obtain ⟨ap', hap', herr, _⟩ := em_create_pd_some cpus n ⟨some ap⟩ pd hcp
  have hap : ap = ap' := Option.some.inj hap'
  rw [← hap] at herr
  obtain ⟨h1, h2, h3, h4⟩ := buildLoop_ok_floors ap (cpumask_first cpus) n
    0 0 0 ULONG_MAX (Nat.zero_le _) herr
  exact ⟨h1, h3, h2, h4 hn⟩

/-- Counterexample to C9 as stated: a successful 2-state registration whose
second sampler invocation receives floor 101 (the first accepted frequency
plus one), not the iteration index 1. -/
theorem C9_sampler_floors_cex :
    (em_register_perf_domain st0 cap1 (some [0]) 2 (some cb4)).1 =
      RegResult.ok ∧
    (buildOf sampler4 [0] 2).floors = [0, 101] ∧
    ([0, 101] : List Nat) ≠ [0, 1] := by
  exact ⟨rfl, rfl, by decide⟩

/-- Witness for C9 at the spec's 2-state scenario: 2 invocations, strictly
increasing floors below the accepted frequencies, floor sequence
`[0, 100 + 1]`. -/
theorem C9_sampler_floors_witness :
    (buildOf sampler4 [0] 2).floors.length = 2 ∧
    List.Chain' Nat.lt (buildOf sampler4 [0] 2).floors ∧
    List.Forall₂ Nat.le (buildOf sampler4 [0] 2).floors
      ((buildOf sampler4 [0] 2).entries.map Prod.snd) ∧
    (buildOf sampler4 [0] 2).floors =
      0 :: ((buildOf sampler4 [0] 2).entries.map succOfSnd).dropLast := by
  exact C9_sampler_floors st0 cap1 [0] 2 sampler4
    (em_register_perf_domain st0 cap1 (some [0]) 2
      (some ⟨some sampler4⟩)).2 rfl

/-- Claim C10, amended: in every successfully published table, each row
whose 64-bit product `fmax * power` does not wrap satisfies
`power ≤ cost`, and the last row's cost equals its power when its product
does not wrap; under wrap-around both parts can fail (see the
counterexample). -/
theorem C10_cost_ge_power (st : EMState) (cap : Nat → Nat)
    (cpus : List Nat) (n : Nat) (cb : em_data_callback) (st' : EMState)
    (c : Nat) (pd : em_perf_domain)
    (hreg : em_register_perf_domain st cap (some cpus) n (some cb) =
      (.ok, st'))
    (hc : c ∈ cpus) (hpd : em_cpu_domain st' c = some pd) :
    (∀ e ∈ pd.table, fmaxOf pd * e.power < U64 → e.power ≤ e.cost) ∧
    (pd.table ≠ [] → fmaxOf pd * (lastEntry pd.table).power < U64 →
      (lastEntry pd.table).cost = (lastEntry pd.table).power) := by
  have hcp := register_ok_domain st cap cpus n cb st' c pd hreg hc hpd
  obtain ⟨_, _, h3⟩ := table_row_spec cpus n cb pd hcp
  constructor
  · intro e he hlt
    obtain ⟨hfpos, hfle, _, _, hcost⟩ := h3 e he
    rw [hcost, Nat.mod_eq_of_lt hlt]
    have h4 : e.frequency * e.power ≤ fmaxOf pd * e.power :=
      Nat.mul_le_mul_right _ hfle
    have h5 : e.frequency * e.power / e.frequency ≤
        fmaxOf pd * e.power / e.frequency := Nat.div_le_div_right h4
    rwa [Nat.mul_div_cancel_left _ hfpos] at h5
  · intro hne hlt
    have hmem := lastEntry_mem pd.table hne
    obtain ⟨hfpos, _, _, _, hcost⟩ := h3 _ hmem
    have hfeq : (lastEntry pd.table).frequency = fmaxOf pd := by
      rw [lastEntry_map_frequency pd.table hne]
      rfl
    have hfmpos : 0 < fmaxOf pd := hfeq ▸ hfpos
    rw [hcost, Nat.mod_eq_of_lt hlt, hfeq]
    exact Nat.mul_div_cancel_left _ hfmpos

/-- Counterexample to C10 as stated: the successful overflow registration
publishes a first row with cost 0 but power 4, so cost is not bounded below
by power. -/
theorem C10_cost_ge_power_cex :
    (em_register_perf_domain st0 cap1 (some [0]) 2 (some cbOvf)).1 =
      RegResult.ok ∧
    (em_cpu_domain (em_register_perf_domain st0 cap1 (some [0]) 2
      (some cbOvf)).2 0).map costGeClaimHolds = some false := by
  exact ⟨rfl, rfl⟩

/-- Witness for C10 at the spec's scenario: row (100, 10) costs 80 ≥ 10, and
the last row (800, 60) costs exactly 60. -/
theorem C10_cost_ge_power_witness :
    (⟨100, 10, 80⟩ : em_cap_state).power ≤
      (⟨100, 10, 80⟩ : em_cap_state).cost ∧
    (lastEntry (⟨[⟨100, 10, 80⟩, ⟨200, 15, 60⟩, ⟨400, 25, 50⟩,
        ⟨800, 60, 60⟩], 4, [0]⟩ : em_perf_domain).table).cost =
      (lastEntry (⟨[⟨100, 10, 80⟩, ⟨200, 15, 60⟩, ⟨400, 25, 50⟩,
        ⟨800, 60, 60⟩], 4, [0]⟩ : em_perf_domain).table).power := by
  have H := C10_cost_ge_power st0 cap1 [0] 4 cb4
    (em_register_perf_domain st0 cap1 (some [0]) 4 (some cb4)).2 0
    (⟨[⟨100, 10, 80⟩, ⟨200, 15, 60⟩, ⟨400, 25, 50⟩, ⟨800, 60, 60⟩], 4,
      [0]⟩ : em_perf_domain)
    rfl (by decide) rfl
  exact ⟨H.1 ⟨100, 10, 80⟩ (by decide) (by decide),
    H.2 (by decide) (by decide)⟩
